import Mathlib

/-!
Verification of the Node.js module resolution operation surface in
`ext/node/lib.rs` (a Deno extension crate). The Rust operations are embedded
shallowly:

* Absolute normalized POSIX paths handled by `op_require_node_module_paths`
  are represented as their component lists, innermost component first, so
  Rust `Path::parent` is `List.tail` and the root `/` is `[]`. The operation
  receives such a path because the source first runs the argument through
  `deno_core::resolve_path`, which yields a normalized absolute path; the
  non-Windows (`cfg!(windows) = false`) branches are the ones embedded.
  The initial `ensure_read_permission` call is elided: all claims about this
  operation concern the granted-permission case.
* The possibly non-terminating `while let` walk of the source is embedded
  with explicit fuel; `none` means the fuel ran out, and a result that is
  `none` for every fuel value is a non-terminating execution.
* String-manipulating operations (`path_resolve`, `normalize_path`,
  `PathBuf::join`, `str::starts_with`) are embedded on `String` /
  `List Char`, mirroring the byte-level Rust semantics on UTF-8 strings.
* Stateful external collaborators (the npm resolver, the permission gate,
  the filesystem, `PackageJson::load`, `package_exports_resolve`,
  `get_package_scope_config` — the latter three live in `resolution.rs` /
  `package_json.rs`, outside the file under review) are passed as explicit
  function parameters, so every theorem quantifies over their behavior.
-/

/-- An absolute normalized POSIX path, as its components innermost-first:
`/a/b/c` is `["c", "b", "a"]` and the root `/` is `[]`. `Path::parent` is
`List.tail`, `Path::join` with a single component is `List.cons`. -/
abbrev AbsPath := List String

/-- Rust `Path::to_string_lossy` for an absolute normalized POSIX path in the
innermost-first component representation. -/
def pathToString : AbsPath → String
  | [] => "/"
  | [c] => "/" ++ c
  | c :: rest => pathToString rest ++ "/" ++ c

/-- Rust `Path::parent`: `none` exactly for the root. -/
def parentOf : AbsPath → Option AbsPath
  | [] => none
  | _ :: rest => some rest

/-- The `while let Some(parent) = maybe_parent` loop of
`op_require_node_module_paths`, with explicit fuel. The Rust guard
`parent.ends_with("/node_modules")` compares whole path components and its
argument is an absolute path, so it holds exactly when `parent` is the exact
path `/node_modules` (component list `["node_modules"]`); in that case the
source loop body does nothing, so the loop never advances — embedded here as
a self-call that only burns fuel. Otherwise the body pushes
`parent.join("node_modules")` and steps to `parent.parent()`. -/
def nodeModulePathsWalk : Nat → Option AbsPath → List String → Option (List String)
  | 0, _, _ => none
  | _ + 1, none, acc => some acc
  | fuel + 1, some parent, acc =>
    if parent = ["node_modules"] then
      nodeModulePathsWalk fuel (some parent) acc
    else
      nodeModulePathsWalk fuel (parentOf parent)
        (acc ++ [pathToString ("node_modules" :: parent)])

/-- `op_require_node_module_paths` (non-Windows branches): the early return
for the exact root path, then the upward walk, then the unconditional final
`"/node_modules"` entry. -/
def op_require_node_module_paths (fuel : Nat) (frm : AbsPath) :
    Option (List String) :=
  if pathToString frm = "/" then some ["/node_modules"]
  else (nodeModulePathsWalk fuel (some frm) []).map
    (fun paths => paths ++ ["/node_modules"])

/-- Claim-side predicate: the entry string ends with `"/node_modules"`. -/
def endsWithNodeModules (s : String) : Bool :=
  "/node_modules".data.isSuffixOf s.data

/-- Split a character list at every `/` (claim-side helper used to speak
about components of the produced entry strings). -/
def splitSlash : List Char → List (List Char)
  | [] => [[]]
  | c :: cs =>
    match splitSlash cs with
    | [] => [[]]
    | p :: ps => if c = '/' then [] :: p :: ps else (c :: p) :: ps

/-- Claim-side helper: the components of the directory containing the path
denoted by the entry string. -/
def entryDir (s : String) : List (List Char) :=
  ((splitSlash s.data).filter (fun p => !p.isEmpty)).dropLast

/-- Claim-side helper: the basename of the parent directory of the entry
string, if the parent is not the root. -/
def entryParentBasename (s : String) : Option String :=
  (entryDir s).getLast?.map (fun l => ⟨l⟩)

/-- Claim-side predicate: each consecutive pair of entries is in a (strict)
ancestor/descendant relationship, read on the directories the entries name:
the directory of the later entry is a proper ancestor of the directory of
the earlier entry (innermost ancestor first, classic Node order). -/
def consecAncestorB : List String → Bool
  | a :: b :: rest =>
    ((entryDir b).isPrefixOf (entryDir a)
      && Nat.blt (entryDir b).length (entryDir a).length)
      && consecAncestorB (b :: rest)
  | _ => true

/-- Claim-side conjunction P1 of the specification, for the entry list
returned by `op_require_node_module_paths`. -/
def nodeModulePathsP1 (l : List String) : Prop :=
  l ≠ [] ∧ (∀ e ∈ l, endsWithNodeModules e = true) ∧
    consecAncestorB l = true ∧
    (∀ e ∈ l, entryParentBasename e ≠ some "node_modules")

/-- A POSIX path component as produced by Rust `Path::components`: `.`,
`..`, or a normal name. -/
inductive PathComponent
  | cur
  | par
  | normal (name : List Char)
deriving DecidableEq

/-- Rust `Path::has_root` on POSIX: the string begins with `/`. -/
def hasRoot (l : List Char) : Bool :=
  match l with
  | c :: _ => c == '/'
  | [] => false

/-- Classification of one non-empty piece between separators, as in Rust
`Path::components`. -/
def classifyComp (p : List Char) : PathComponent :=
  if p = ['.'] then .cur else if p = ['.', '.'] then .par else .normal p

/-- Rust `Path::components` for a POSIX path (root handled separately by
`hasRoot`): split at `/`, drop empty pieces (repeated separators), classify
the rest. `.` pieces are classified here and skipped by the normalization
fold, matching what `deno_core::normalize_path` does with them. -/
def componentsOf (l : List Char) : List PathComponent :=
  ((splitSlash l).filter (fun p => !p.isEmpty)).map classifyComp

/-- One step of the component loop of `deno_core::normalize_path`: `.` is
skipped, `..` pops the last pushed component (a no-op when nothing is
there, as `PathBuf::pop` at the root or on an empty buffer), and a normal
name is pushed. -/
def normStep (acc : List (List Char)) : PathComponent → List (List Char)
  | .cur => acc
  | .par => acc.dropLast
  | .normal n => acc ++ [n]

/-- The component loop of `deno_core::normalize_path`. -/
def normalizeComps (cs : List PathComponent) : List (List Char) :=
  cs.foldl normStep []

/-- Rebuild the string of a component list, one `/` between components, as
the successive `PathBuf::push` calls of `deno_core::normalize_path` do. -/
def renderComps : List (List Char) → List Char
  | [] => []
  | [p] => p
  | p :: q :: r => p ++ '/' :: renderComps (q :: r)

/-- Rebuild the full path: a leading `/` exactly when the input had a root
(the `RootDir` component is pushed first by `deno_core::normalize_path`). -/
def renderPath (ab : Bool) (ps : List (List Char)) : List Char :=
  if ab then '/' :: renderComps ps else renderComps ps

/-- `deno_core::normalize_path` on the characters of a POSIX path. -/
def normalizePathChars (l : List Char) : List Char :=
  renderPath (hasRoot l) (normalizeComps (componentsOf l))

/-- `deno_core::normalize_path` (purely lexical: `.` removed, `..` pops,
separators collapsed; no filesystem access). -/
def normalize_path (s : String) : String :=
  ⟨normalizePathChars s.data⟩

/-- Rust `PathBuf::push` / `Path::join` on POSIX: an absolute argument
replaces the path; otherwise the argument is appended, with a separator
unless the buffer is empty or already ends with one. -/
def pathJoinChars (p q : List Char) : List Char :=
  if hasRoot q then q
  else if p.isEmpty then q
  else if p.getLast? = some '/' then p ++ q
  else p ++ '/' :: q

/-- Rust `Path::join` on `String`s. -/
def pathJoin (p q : String) : String :=
  ⟨pathJoinChars p.data q.data⟩

/-- `path_resolve` from `ext/node/lib.rs`: start from the first part, join
the remaining parts left to right, then `normalize_path`. The source
asserts the list is non-empty; the `[]` case is unreachable for valid
calls. -/
def path_resolve (parts : List String) : String :=
  match parts with
  | [] => ""
  | p :: rest => normalize_path (rest.foldl pathJoin p)

/-- The wording of the specification for `path_resolve`: the lexical
normalization of joining the elements of the list left to right (folding
`Path::join` from the empty path). -/
def seqJoinNormalize (parts : List String) : String :=
  normalize_path (parts.foldl pathJoin "")

/-- A component list is clean when it can appear in the output of the
normalization fold: non-empty, separator-free, and not `.` or `..`. -/
def CleanComp (p : List Char) : Prop :=
  p ≠ [] ∧ '/' ∉ p ∧ p ≠ ['.'] ∧ p ≠ ['.', '.']

/-- The fields of the `PackageJson` documents (from `package_json.rs`) that
the operations under review consult: the document path, the optional `name`
field, and the optional `exports` value. The JSON shape of `exports` is
irrelevant to these operations, so it stays a type parameter. -/
structure PackageJson (E : Type) where
  path : String
  name : Option String
  exports : Option E

/-- `op_require_resolve_exports`. `PackageJson::load` and
`package_exports_resolve` live in `package_json.rs` / `resolution.rs` and
are taken as function parameters (`load`, `pkgExportsResolve`); the npm
resolver is represented by its `in_npm_package` answer. The source computes
`pkg_path`, loads `<pkg_path>/package.json` (propagating its error with
`?`), and only on success consults `exports`. -/
def op_require_resolve_exports {E R : Type} (in_npm_package : String → Bool)
    (load : String → Except String (PackageJson E))
    (pkgExportsResolve : String → String → E → String → Except String R)
    (uses_local_node_modules_dir : Bool) (modules_path : String)
    (_request name expansion parent_path : String) :
    Except String (Option R) :=
  let pkg_path :=
    if in_npm_package modules_path && !uses_local_node_modules_dir then
      modules_path
    else path_resolve [modules_path, name]
  match load (pathJoin pkg_path "package.json") with
  | .error e => .error e
  | .ok pkg =>
    match pkg.exports with
    | some exports =>
      (pkgExportsResolve pkg.path ("." ++ expansion) exports parent_path).map some
    | none => .ok none

/-- The kind reported by `std::fs::metadata` for an existing path. -/
inductive MetadataKind
  | file
  | dir
  | other
deriving DecidableEq

/-- `op_require_stat`: check read permission first (its error propagates
with `?`), then `std::fs::metadata`: `0` for a regular file, `1` for any
other existing kind, `Ok(-1)` when the metadata lookup fails. The gate and
the filesystem are function parameters. -/
def op_require_stat (ensure_read : String → Except String Unit)
    (metadata : String → Option MetadataKind) (path : String) :
    Except String Int :=
  match ensure_read path with
  | .error e => .error e
  | .ok _ =>
    match metadata path with
    | some MetadataKind.file => .ok 0
    | some _ => .ok 1
    | none => .ok (-1)

/-- `op_require_is_request_relative` (non-Windows: the `cfg!(windows)`
block testing `.\` and `..\` is compiled out): the request begins with
`./` or `../`, or equals `..`. `str::starts_with` is byte-wise, embedded
as character-list matching. -/
def op_require_is_request_relative (request : String) : Bool :=
  ['.', '/'].isPrefixOf request.data
    || ['.', '.', '/'].isPrefixOf request.data
    || request.data == ['.', '.']

/-- Modelled from the spec: the outcome of `Url::parse` from the external
`url` crate (not part of this repository), restricted to what
`op_require_as_file_path` observes — either a `file:` URL carrying a
filesystem path or some other parseable URL with no file path. -/
inductive ParsedUrl
  | file (path : String)
  | other

/-- Modelled from the spec: a string that looks like a URL to `Url::parse`,
approximated as an alphabetic first character followed somewhere by `:`.
Plain relative or absolute filesystem paths do not qualify. -/
def looksLikeUrl (s : String) : Bool :=
  match s.data with
  | c :: cs => c.isAlpha && cs.contains ':'
  | [] => false

/-- Modelled from the spec: `Url::parse`. A `file:///<path>` string parses
to a file URL whose path is `/<path>` (percent-encoding is not modelled);
any other URL-looking string parses to a non-file URL; anything else fails
to parse. -/
def urlParse (s : String) : Option ParsedUrl :=
  if "file:///".data.isPrefixOf s.data then some (.file ⟨s.data.drop 7⟩)
  else if looksLikeUrl s then some .other
  else none

/-- Modelled from the spec: `Url::to_file_path` — file URLs convert to
their path, other URLs do not convert. -/
def urlToFilePath : ParsedUrl → Option String
  | .file p => some p
  | .other => none

/-- `op_require_as_file_path`: when the input parses as a URL convertible
to a file path, return that path; in every other case return the input
unchanged. -/
def op_require_as_file_path (file_or_url : String) : String :=
  match urlParse file_or_url with
  | some url =>
    match urlToFilePath url with
    | some p => p
    | none => file_or_url
  | none => file_or_url

/-- `op_require_init_paths`: the whole body computing HOME- and
NODE_PATH-derived global roots is commented out in the source; the
operation returns the empty vector. The environment is passed as an
explicit parameter only to state that independence. -/
def op_require_init_paths (_env : String → Option String) : List String := []

/-- The expansion computed by `op_require_try_self`: `"."` when the request
equals the package name, `"."` followed by the remainder when the request
begins with the package name and `"/"`, nothing otherwise (the source
slices `request[pkg_name.len()..]`, keeping the `/`). -/
def trySelfExpansion (pkg_name request : String) : Option String :=
  if request = pkg_name then some "."
  else if (pkg_name ++ "/").data.isPrefixOf request.data then
    some ("." ++ ⟨request.data.drop pkg_name.data.length⟩)
  else none

/-- `op_require_try_self`. `get_package_scope_config` and
`package_exports_resolve` live in `resolution.rs` and are function
parameters. The source returns `Ok(None)` when there is no parent path,
when the scope config fails to load (`.ok()` discards the error), when the
package has no `exports` or no `name`, or when the request matches neither
the name nor `name + "/"`; only past all of that does it resolve exports. -/
def op_require_try_self {E R : Type}
    (get_package_scope_config : String → Except String (PackageJson E))
    (pkgExportsResolve : String → String → E → Except String R)
    (parent_path : Option String) (request : String) :
    Except String (Option R) :=
  match parent_path with
  | none => .ok none
  | some pp =>
    match (get_package_scope_config pp).toOption with
    | none => .ok none
    | some pkg =>
      match pkg.exports with
      | none => .ok none
      | some _ =>
        match pkg.name with
        | none => .ok none
        | some pkg_name =>
          match trySelfExpansion pkg_name request with
          | none => .ok none
          | some expansion =>
            match pkg.exports with
            | some exports =>
              (pkgExportsResolve pkg.path expansion exports).map some
            | none => .ok none

/-- Once the walk reaches the exact path `/node_modules`, it never finishes:
the source loop body is skipped and the cursor never advances. -/
theorem nodeModulePathsWalk_stuck (fuel : Nat) (acc : List String) :
    nodeModulePathsWalk fuel (some ["node_modules"]) acc = none := by
  induction fuel with
  | zero => rfl
  | succ n ih => simpa [nodeModulePathsWalk] using ih

/-- One advancing step of the walk, for a cursor other than `/node_modules`. -/
theorem nodeModulePathsWalk_step (fuel : Nat) (parent : AbsPath)
    (acc : List String) (h : parent ≠ ["node_modules"]) :
    nodeModulePathsWalk (fuel + 1) (some parent) acc =
      nodeModulePathsWalk fuel (parentOf parent)
        (acc ++ [pathToString ("node_modules" :: parent)]) := by
  simp [nodeModulePathsWalk, h]

/-- C1: on POSIX, `node_module_paths("/a/b/c")` is claimed to be the
four-element list `["/a/b/c/node_modules", "/a/b/node_modules",
"/a/node_modules", "/node_modules"]`. The code instead returns five
entries: the upward walk also pushes an entry for the root directory `/`
and the final `"/node_modules"` is then appended unconditionally, so
`"/node_modules"` appears twice. -/
theorem node_module_paths_abc_returns_five_entries :
    op_require_node_module_paths 16 ["c", "b", "a"] =
      some ["/a/b/c/node_modules", "/a/b/node_modules", "/a/node_modules",
        "/node_modules", "/node_modules"] ∧
    op_require_node_module_paths 16 ["c", "b", "a"] ≠
      some ["/a/b/c/node_modules", "/a/b/node_modules", "/a/node_modules",
        "/node_modules"] := by
  constructor <;> decide

/-- C2: `node_module_paths` is claimed to terminate for every absolute
`from`, in particular for `from = "/node_modules/pkg/file"`. On that input
the upward walk reaches the exact path `/node_modules`, for which the Rust
guard `parent.ends_with("/node_modules")` holds, and the loop body — which
contains the only cursor updates — is skipped forever: the operation
diverges (in the fuel embedding, it fails for every fuel). -/
theorem node_module_paths_inside_node_modules_diverges (fuel : Nat) :
    op_require_node_module_paths fuel ["file", "pkg", "node_modules"] = none := by
  rw [op_require_node_module_paths, if_neg (by decide)]
  suffices h : nodeModulePathsWalk fuel (some ["file", "pkg", "node_modules"]) [] = none by
    rw [h]; rfl
  match fuel with
  | 0 => rfl
  | 1 => rfl
  | n + 2 =>
    rw [nodeModulePathsWalk_step _ _ _ (by decide)]
    simp only [parentOf]
    rw [nodeModulePathsWalk_step _ _ _ (by decide)]
    simp only [parentOf]
    exact nodeModulePathsWalk_stuck n _

/-- C3: the invariant P1 is claimed for every absolute `from`. It fails at
`from = "/a/node_modules/b"`: since `Path::ends_with("/node_modules")` is
not a basename test, the walk emits `"/a/node_modules/node_modules"`, whose
parent directory has basename `node_modules`; moreover the final two
entries are both `"/node_modules"`, so the consecutive strict
ancestor/descendant property fails as well. -/
theorem node_module_paths_violates_p1 :
    op_require_node_module_paths 16 ["b", "node_modules", "a"] =
      some ["/a/node_modules/b/node_modules", "/a/node_modules/node_modules",
        "/a/node_modules", "/node_modules", "/node_modules"] ∧
    ¬ nodeModulePathsP1 ["/a/node_modules/b/node_modules",
        "/a/node_modules/node_modules", "/a/node_modules", "/node_modules",
        "/node_modules"] := by
  constructor
  · decide
  · intro h
    exact absurd (h.2.2.2 "/a/node_modules/node_modules" (by decide)) (by decide)

/-- String extensionality helper: rebuilding a string from its own
characters is the identity. -/
theorem stringMk_data (s : String) : (⟨s.data⟩ : String) = s := rfl

/-- The splitter never returns an empty list of pieces. -/
theorem splitSlash_ne_nil (l : List Char) : splitSlash l ≠ [] := by
  match l with
  | [] => simp [splitSlash]
  | c :: cs =>
    have ih := splitSlash_ne_nil cs
    cases h : splitSlash cs with
    | nil => exact absurd h ih
    | cons p ps =>
      simp only [splitSlash, h]
      split <;> simp

/-- No piece produced by the splitter contains a separator. -/
theorem slash_not_mem_splitSlash (l : List Char) :
    ∀ p ∈ splitSlash l, '/' ∉ p := by
  induction l with
  | nil =>
    intro p hp
    simp [splitSlash] at hp
    simp [hp]
  | cons c cs ih =>
    intro p hp
    cases h : splitSlash cs with
    | nil => exact absurd h (splitSlash_ne_nil cs)
    | cons q qs =>
      simp only [splitSlash, h] at hp
      by_cases hc : c = '/'
      · rw [if_pos hc] at hp
        rcases List.mem_cons.mp hp with h1 | h1
        · subst h1; simp
        · exact ih p (h ▸ h1)
      · rw [if_neg hc] at hp
        rcases List.mem_cons.mp hp with h1 | h1
        · subst h1
          intro hm
          rcases List.mem_cons.mp hm with h2 | h2
          · exact hc h2.symm
          · exact ih q (by rw [h]; exact List.mem_cons_self q qs) h2
        · exact ih p (by rw [h]; exact List.mem_cons_of_mem q h1)

/-- Splitting a separator-free piece yields that piece alone. -/
theorem splitSlash_no_slash (p : List Char) (h : '/' ∉ p) :
    splitSlash p = [p] := by
  induction p with
  | nil => rfl
  | cons c cs ih =>
    have hc : c ≠ '/' := fun hcc => h (by rw [hcc]; exact List.mem_cons_self '/' cs)
    have hcs : '/' ∉ cs := fun hm => h (List.mem_cons_of_mem c hm)
    simp [splitSlash, ih hcs, hc]

/-- Splitting after a leading separator. -/
theorem splitSlash_cons_slash (t : List Char) :
    splitSlash ('/' :: t) = [] :: splitSlash t := by
  cases h : splitSlash t with
  | nil => exact absurd h (splitSlash_ne_nil t)
  | cons q qs => simp [splitSlash, h]

/-- Splitting a separator-free piece followed by a separator and a rest. -/
theorem splitSlash_append_slash (p t : List Char) (h : '/' ∉ p) :
    splitSlash (p ++ '/' :: t) = p :: splitSlash t := by
  induction p with
  | nil => simpa using splitSlash_cons_slash t
  | cons c cs ih =>
    have hc : c ≠ '/' := fun hcc => h (by rw [hcc]; exact List.mem_cons_self '/' cs)
    have hcs : '/' ∉ cs := fun hm => h (List.mem_cons_of_mem c hm)
    simp [splitSlash, ih hcs, hc]

/-- Splitting the rendering of clean pieces recovers the pieces. -/
theorem splitSlash_renderComps :
    ∀ ps : List (List Char), ps ≠ [] → (∀ p ∈ ps, p ≠ [] ∧ '/' ∉ p) →
      splitSlash (renderComps ps) = ps
  | [], hne, _ => absurd rfl hne
  | [p], _, h => by
    simpa [renderComps] using splitSlash_no_slash p (h p (by simp)).2
  | p :: q :: r, _, h => by
    rw [renderComps, splitSlash_append_slash _ _ (h p (by simp)).2,
      splitSlash_renderComps (q :: r) (by simp)
        (fun x hx => h x (List.mem_cons_of_mem p hx))]

/-- Membership in `dropLast` implies membership. -/
theorem mem_of_mem_dropLast {α : Type} {x : α} :
    ∀ {l : List α}, x ∈ l.dropLast → x ∈ l
  | [], hx => by simp at hx
  | [_], hx => by simp at hx
  | _ :: b :: r, hx => by
    rw [List.dropLast_cons₂] at hx
    rcases List.mem_cons.mp hx with h1 | h1
    · exact h1 ▸ List.mem_cons_self _ _
    · exact List.mem_cons_of_mem _ (mem_of_mem_dropLast h1)

/-- Parsing the rendering of clean components recovers the components. -/
theorem componentsOf_renderPath (ab : Bool) (ps : List (List Char))
    (h : ∀ p ∈ ps, CleanComp p) :
    componentsOf (renderPath ab ps) = ps.map PathComponent.normal := by
  have hclassify : ∀ p ∈ ps, classifyComp p = PathComponent.normal p := by
    intro p hp
    unfold classifyComp
    rw [if_neg (h p hp).2.2.1, if_neg (h p hp).2.2.2]
  have hpieces : (splitSlash (renderComps ps)).filter (fun p => !p.isEmpty) = ps := by
    match ps with
    | [] => rfl
    | p :: r =>
      rw [splitSlash_renderComps (p :: r) (by simp)
        (fun x hx => ⟨(h x hx).1, (h x hx).2.1⟩)]
      apply List.filter_eq_self.mpr
      intro a ha
      simpa using (h a ha).1
  cases ab with
  | false =>
    show componentsOf (renderComps ps) = _
    unfold componentsOf
    rw [hpieces]
    exact List.map_congr_left hclassify
  | true =>
    show componentsOf ('/' :: renderComps ps) = _
    unfold componentsOf
    rw [splitSlash_cons_slash]
    show (([] :: splitSlash (renderComps ps)).filter (fun p => !p.isEmpty)).map _ = _
    rw [List.filter_cons_of_neg (by simp), hpieces]
    exact List.map_congr_left hclassify

/-- The rendering of clean components has a root exactly when asked to. -/
theorem hasRoot_renderPath (ab : Bool) (ps : List (List Char))
    (h : ∀ p ∈ ps, CleanComp p) : hasRoot (renderPath ab ps) = ab := by
  cases ab with
  | true => rfl
  | false =>
    show hasRoot (renderComps ps) = false
    cases ps with
    | nil => rfl
    | cons p r =>
      obtain ⟨c, p', rfl⟩ : ∃ c p', p = c :: p' := by
        cases p with
        | nil => exact absurd rfl (h [] (by simp)).1
        | cons c p' => exact ⟨c, p', rfl⟩
      have hc : c ≠ '/' := fun hcc =>
        (h _ (List.mem_cons_self _ _)).2.1 (by rw [hcc]; exact List.mem_cons_self '/' p')
      cases r with
      | nil => simpa [renderComps, hasRoot] using hc
      | cons q r' => simpa [renderComps, hasRoot] using hc

/-- Folding the normalization step over already-normal components appends
them all. -/
theorem foldl_normStep_map_normal (ps acc : List (List Char)) :
    List.foldl normStep acc (ps.map PathComponent.normal) = acc ++ ps := by
  induction ps generalizing acc with
  | nil => simp
  | cons p r ih =>
    rw [List.map_cons, List.foldl_cons]
    show List.foldl normStep (acc ++ [p]) (r.map PathComponent.normal) = _
    rw [ih]
    simp

/-- Every element surviving the normalization fold was in the accumulator
or is the payload of a normal component of the input. -/
theorem mem_foldl_normStep (cs : List PathComponent) (acc : List (List Char))
    (x : List Char) (hx : x ∈ List.foldl normStep acc cs) :
    x ∈ acc ∨ PathComponent.normal x ∈ cs := by
  induction cs generalizing acc with
  | nil => simp at hx; exact Or.inl hx
  | cons c r ih =>
    rw [List.foldl_cons] at hx
    rcases ih (normStep acc c) hx with h1 | h1
    · cases c with
      | cur => exact Or.inl h1
      | par => exact Or.inl (mem_of_mem_dropLast h1)
      | normal n =>
        rcases List.mem_append.mp h1 with h2 | h2
        · exact Or.inl h2
        · simp at h2
          subst h2
          exact Or.inr (List.mem_cons_self _ _)
    · exact Or.inr (List.mem_cons_of_mem _ h1)

/-- Normal components coming out of the parser are clean. -/
theorem componentsOf_normal_clean (l p : List Char)
    (hp : PathComponent.normal p ∈ componentsOf l) : CleanComp p := by
  unfold componentsOf at hp
  rcases List.mem_map.mp hp with ⟨q, hq, hcl⟩
  have hq1 : q ∈ splitSlash l := (List.mem_filter.mp hq).1
  have hq2 : (!q.isEmpty) = true := (List.mem_filter.mp hq).2
  unfold classifyComp at hcl
  by_cases h1 : q = ['.']
  · rw [if_pos h1] at hcl; cases hcl
  · rw [if_neg h1] at hcl
    by_cases h2 : q = ['.', '.']
    · rw [if_pos h2] at hcl; cases hcl
    · rw [if_neg h2] at hcl
      injection hcl with hqe
      subst hqe
      refine ⟨?_, slash_not_mem_splitSlash l q hq1, h1, h2⟩
      intro hnil
      rw [hnil] at hq2
      simp at hq2

/-- The output pieces of one normalization pass are clean. -/
theorem cleanComp_normalizeComps (l : List Char) :
    ∀ p ∈ normalizeComps (componentsOf l), CleanComp p := by
  intro p hp
  rcases mem_foldl_normStep _ [] p hp with h | h
  · simp at h
  · exact componentsOf_normal_clean l p h

/-- Lexical path normalization is idempotent (character level). -/
theorem normalizePathChars_idem (l : List Char) :
    normalizePathChars (normalizePathChars l) = normalizePathChars l := by
  have hclean := cleanComp_normalizeComps l
  conv_lhs => rw [normalizePathChars, normalizePathChars]
  rw [componentsOf_renderPath _ _ hclean, hasRoot_renderPath _ _ hclean]
  rw [show normalizeComps
      ((normalizeComps (componentsOf l)).map PathComponent.normal) =
      normalizeComps (componentsOf l) from by
    rw [normalizeComps, foldl_normStep_map_normal]
    simp]
  rfl

/-- `normalize_path` is idempotent. -/
theorem normalize_path_idem (s : String) :
    normalize_path (normalize_path s) = normalize_path s := by
  simp only [normalize_path]
  exact congrArg String.mk (normalizePathChars_idem s.data)

/-- Joining onto the empty path returns the argument. -/
theorem pathJoin_empty_left (q : String) : pathJoin "" q = q := by
  cases h : hasRoot q.data <;>
    simp [pathJoin, pathJoinChars, h, stringMk_data]

/-- C5: for every non-empty list of path strings, `path_resolve` equals the
lexical normalization of joining the elements left to right, and
`path_resolve` is idempotent. -/
theorem path_resolve_normalized_join_and_idempotent (xs : List String)
    (h : xs ≠ []) :
    path_resolve xs = seqJoinNormalize xs ∧
    path_resolve [path_resolve xs] = path_resolve xs := by
  match xs with
  | [] => exact absurd rfl h
  | p :: rest =>
    constructor
    · show normalize_path (rest.foldl pathJoin p) = seqJoinNormalize (p :: rest)
      rw [seqJoinNormalize, List.foldl_cons, pathJoin_empty_left]
    · show path_resolve [path_resolve (p :: rest)] = path_resolve (p :: rest)
      show normalize_path (List.foldl pathJoin (path_resolve (p :: rest)) []) = _
      rw [List.foldl_nil]
      show normalize_path (normalize_path (rest.foldl pathJoin p)) = _
      exact normalize_path_idem _

/-- Witness for C5 at a concrete input. -/
theorem path_resolve_normalized_join_and_idempotent_witness :
    path_resolve ["/a//b/", "./c", "../d"] =
      seqJoinNormalize ["/a//b/", "./c", "../d"] ∧
    path_resolve [path_resolve ["/a//b/", "./c", "../d"]] =
      path_resolve ["/a//b/", "./c", "../d"] :=
  path_resolve_normalized_join_and_idempotent ["/a//b/", "./c", "../d"]
    (by decide)

/-- Characters of an appended string. -/
theorem stringData_append (s t : String) : (s ++ t).data = s.data ++ t.data :=
  rfl

/-- C4: in `op_require_resolve_exports` the package root is `modules_path`
verbatim exactly when `in_npm_package(modules_path)` holds and
`uses_local_node_modules_dir` is false; in every other case it is the
normalized join of `modules_path` and `name`; and `<root>/package.json` is
loaded before any exports resolution — a load failure is the result,
whatever the exports resolver would do. -/
theorem resolve_exports_package_root {E R : Type} (in_npm : String → Bool)
    (load : String → Except String (PackageJson E))
    (per : String → String → E → String → Except String R)
    (ul : Bool) (mp req nm exp pp : String) :
    (in_npm mp = true → ul = false →
      (if in_npm mp && !ul then mp else path_resolve [mp, nm]) = mp) ∧
    (in_npm mp = false ∨ ul = true →
      (if in_npm mp && !ul then mp else path_resolve [mp, nm]) =
        path_resolve [mp, nm]) ∧
    (∀ e, load (pathJoin
        (if in_npm mp && !ul then mp else path_resolve [mp, nm])
        "package.json") = .error e →
      op_require_resolve_exports in_npm load per ul mp req nm exp pp =
        .error e) ∧
    (∀ pkg, load (pathJoin
        (if in_npm mp && !ul then mp else path_resolve [mp, nm])
        "package.json") = .ok pkg →
      op_require_resolve_exports in_npm load per ul mp req nm exp pp =
        match pkg.exports with
        | some ex => (per pkg.path ("." ++ exp) ex pp).map some
        | none => .ok none) := by
  refine ⟨?_, ?_, ?_, ?_⟩
  · intro h1 h2
    rw [if_pos (by simp [h1, h2])]
  · intro h
    rcases h with h | h <;> rw [if_neg (by simp [h])]
  · intro e he
    simp only [op_require_resolve_exports]
    rw [he]
  · intro pkg hpkg
    simp only [op_require_resolve_exports]
    rw [hpkg]

/-- Witness for C4: a managed path is used verbatim, and a load failure is
returned before any exports resolution. -/
theorem resolve_exports_package_root_witness :
    (if (fun s => s == "/managed/pkg") "/managed/pkg" && !false then
      "/managed/pkg" else path_resolve ["/managed/pkg", "p"]) =
      "/managed/pkg" ∧
    op_require_resolve_exports (fun s => s == "/managed/pkg")
      (fun _ => (.error "io" : Except String (PackageJson Unit)))
      (fun _ _ _ _ => (.ok "r" : Except String String))
      false "/managed/pkg" "p" "p" "" "/parent" =
      .error "io" :=
  ⟨(resolve_exports_package_root (fun s => s == "/managed/pkg")
      (fun _ => (.error "io" : Except String (PackageJson Unit)))
      (fun _ _ _ _ => (.ok "r" : Except String String))
      false "/managed/pkg" "p" "p" "" "/parent").1 (by decide) rfl,
   (resolve_exports_package_root (fun s => s == "/managed/pkg")
      (fun _ => (.error "io" : Except String (PackageJson Unit)))
      (fun _ _ _ _ => (.ok "r" : Except String String))
      false "/managed/pkg" "p" "p" "" "/parent").2.2.1 "io" rfl⟩

/-- C6: when the gate grants read, `stat` returns `0` for a regular file,
`1` for an existing non-file, and `Ok(-1)` for a failed metadata lookup —
a missing path is a normal result, not an error; when the gate refuses,
its error is returned before any filesystem access (the result does not
depend on the filesystem at all). -/
theorem stat_classification (er : String → Except String Unit)
    (md : String → Option MetadataKind) (p : String) :
    (er p = .ok () →
      op_require_stat er md p = .ok (match md p with
        | some MetadataKind.file => 0
        | some MetadataKind.dir => 1
        | some MetadataKind.other => 1
        | none => -1)) ∧
    (∀ e (md2 : String → Option MetadataKind), er p = .error e →
      op_require_stat er md2 p = .error e) := by
  constructor
  · intro h
    simp only [op_require_stat]
    rw [h]
    cases hmd : md p with
    | none => rfl
    | some k => cases k <;> rfl
  · intro e md2 h
    simp only [op_require_stat]
    rw [h]

/-- Witness for C6 at concrete gates and filesystems. -/
theorem stat_classification_witness :
    op_require_stat (fun _ => .ok ()) (fun _ => some MetadataKind.dir) "/d" =
      .ok 1 ∧
    op_require_stat (fun _ => .ok ()) (fun _ => none) "/missing" =
      .ok (-1) ∧
    op_require_stat (fun _ => .error "denied") (fun _ => some MetadataKind.file)
      "/f" = .error "denied" :=
  ⟨(stat_classification (fun _ => .ok ()) (fun _ => some MetadataKind.dir)
      "/d").1 rfl,
   (stat_classification (fun _ => .ok ()) (fun _ => none) "/missing").1 rfl,
   (stat_classification (fun _ => .error "denied")
      (fun _ => some MetadataKind.file) "/f").2 "denied" _ rfl⟩

/-- C7: every request beginning with `./` or `../` is relative, as is the
request `..`; `foo` is not; and on non-Windows a request beginning with
`.\` is not relative. -/
theorem is_request_relative_classification :
    (∀ (r : String) (t : List Char), r.data = '.' :: '/' :: t →
      op_require_is_request_relative r = true) ∧
    (∀ (r : String) (t : List Char), r.data = '.' :: '.' :: '/' :: t →
      op_require_is_request_relative r = true) ∧
    op_require_is_request_relative ".." = true ∧
    op_require_is_request_relative "./x" = true ∧
    op_require_is_request_relative "foo" = false ∧
    (∀ (r : String) (t : List Char), r.data = '.' :: '\\' :: t →
      op_require_is_request_relative r = false) := by
  refine ⟨?_, ?_, by decide, by decide, by decide, ?_⟩
  · intro r t h
    simp only [op_require_is_request_relative, h]
    simp [List.isPrefixOf]
  · intro r t h
    simp only [op_require_is_request_relative, h]
    simp [List.isPrefixOf]
  · intro r t h
    simp only [op_require_is_request_relative, h]
    simp [List.isPrefixOf]

/-- Witness for C7 on concrete requests. -/
theorem is_request_relative_classification_witness :
    op_require_is_request_relative "./y" = true ∧
    op_require_is_request_relative "../y" = true ∧
    op_require_is_request_relative ".\\z" = false :=
  ⟨is_request_relative_classification.1 "./y" ['y'] rfl,
   is_request_relative_classification.2.1 "../y" ['y'] rfl,
   is_request_relative_classification.2.2.2.2.2 ".\\z" ['z'] rfl⟩

/-- C8: `as_file_path` applied to the `file://` URL string of an absolute
path returns that path, and on every input that is not a parseable URL
convertible to a file path it returns the input unchanged. -/
theorem as_file_path_roundtrip_and_identity :
    (∀ (p : String) (t : List Char), p.data = '/' :: t →
      op_require_as_file_path ("file://" ++ p) = p) ∧
    (∀ s : String, (urlParse s).bind urlToFilePath = none →
      op_require_as_file_path s = s) := by
  constructor
  · intro p t h
    have hd : ("file://" ++ p).data = "file://".data ++ p.data := rfl
    have hpre : "file:///".data.isPrefixOf ("file://" ++ p).data = true := by
      rw [hd, h]
      simp [List.isPrefixOf]
    have hdrop : ("file://" ++ p).data.drop 7 = p.data := by
      rw [hd]
      simp
    simp only [op_require_as_file_path, urlParse, hpre, if_pos]
    rw [hdrop]
    rfl
  · intro s h
    simp only [op_require_as_file_path]
    cases hp : urlParse s with
    | none => rfl
    | some u =>
      cases u with
      | file q =>
        rw [hp] at h
        simp [urlToFilePath] at h
      | other => rfl

/-- Witness for C8: a round-trip and an unchanged non-URL input. -/
theorem as_file_path_witness :
    op_require_as_file_path "file:///home/x" = "/home/x" ∧
    op_require_as_file_path "not a url" = "not a url" :=
  ⟨as_file_path_roundtrip_and_identity.1 "/home/x" "home/x".data rfl,
   as_file_path_roundtrip_and_identity.2 "not a url" (by decide)⟩

/-- C9: `init_paths` returns the empty list on every invocation, whatever
the environment holds: no HOME-derived or NODE_PATH-derived global
node_modules roots are synthesized. -/
theorem init_paths_always_empty (env : String → Option String) :
    op_require_init_paths env = [] := rfl

/-- C10: `try_self` answers `Ok(None)` whenever the parent path is absent,
the package scope fails to load, the package has no `exports` or no
`name`, or the request matches neither the name nor `name + "/"`; exports
resolution runs exactly when all those conditions fail. -/
theorem try_self_none_conditions {E R : Type}
    (gs : String → Except String (PackageJson E))
    (per : String → String → E → Except String R)
    (pp : Option String) (req : String) :
    (pp = none → op_require_try_self gs per pp req = .ok none) ∧
    (∀ p, pp = some p → (gs p).toOption = none →
      op_require_try_self gs per pp req = .ok none) ∧
    (∀ p pkg, pp = some p → (gs p).toOption = some pkg →
      pkg.exports = none → op_require_try_self gs per pp req = .ok none) ∧
    (∀ p pkg e, pp = some p → (gs p).toOption = some pkg →
      pkg.exports = some e → pkg.name = none →
      op_require_try_self gs per pp req = .ok none) ∧
    (∀ p pkg e n, pp = some p → (gs p).toOption = some pkg →
      pkg.exports = some e → pkg.name = some n →
      trySelfExpansion n req = none →
      op_require_try_self gs per pp req = .ok none) ∧
    (∀ p pkg e n ex, pp = some p → (gs p).toOption = some pkg →
      pkg.exports = some e → pkg.name = some n →
      trySelfExpansion n req = some ex →
      op_require_try_self gs per pp req = (per pkg.path ex e).map some) := by
  refine ⟨?_, ?_, ?_, ?_, ?_, ?_⟩
  · intro h; subst h; rfl
  · intro p h1 h2
    subst h1
    simp [op_require_try_self, h2]
  · intro p pkg h1 h2 h3
    subst h1
    simp [op_require_try_self, h2, h3]
  · intro p pkg e h1 h2 h3 h4
    subst h1
    simp [op_require_try_self, h2, h3, h4]
  · intro p pkg e n h1 h2 h3 h4 h5
    subst h1
    simp [op_require_try_self, h2, h3, h4, h5]
  · intro p pkg e n ex h1 h2 h3 h4 h5
    subst h1
    simp [op_require_try_self, h2, h3, h4, h5]

/-- Witness for C10: a matching self-request resolves through exports, and
a missing parent path answers `Ok(None)`. -/
theorem try_self_none_conditions_witness :
    op_require_try_self
      (fun _ => (.ok ⟨"/pkg/package.json", some "p", some ()⟩ :
        Except String (PackageJson Unit)))
      (fun _ e _ => (.ok e : Except String String))
      (some "/parent") "p/sub" = .ok (some "./sub") ∧
    op_require_try_self
      (fun _ => (.ok ⟨"/pkg/package.json", some "p", some ()⟩ :
        Except String (PackageJson Unit)))
      (fun _ e _ => (.ok e : Except String String))
      none "p/sub" = .ok none :=
  ⟨(try_self_none_conditions
      (fun _ => (.ok ⟨"/pkg/package.json", some "p", some ()⟩ :
        Except String (PackageJson Unit)))
      (fun _ e _ => (.ok e : Except String String))
      (some "/parent") "p/sub").2.2.2.2.2 "/parent"
      ⟨"/pkg/package.json", some "p", some ()⟩ () "p" "./sub"
      rfl rfl rfl rfl (by decide),
   (try_self_none_conditions
      (fun _ => (.ok ⟨"/pkg/package.json", some "p", some ()⟩ :
        Except String (PackageJson Unit)))
      (fun _ e _ => (.ok e : Except String String))
      none "p/sub").1 rfl⟩
